import Mathlib

/-!
Verification of sparkyRecipValidate.py against its specification.

The embedding below translates the two functions of the source file,
validateRecipients and processFile, into pure Lean functions.  Network
traffic is modelled by an environment (a function from the index of each
issued request to the response received), the output CSV writer and the
various log channels are modelled by an explicit run state, and uncaught
Python exceptions are modelled by an optional error component of the
result.  The local syntax checker validate_email is an external
collaborator and is modelled by an abstract predicate, as the spec directs.
-/

namespace Sparky

/-- JSON values, as produced by decoding a response body with resp.json(). -/
inductive JSON where
  | null
  | bool (b : Bool)
  | num (n : Int)
  | str (s : String)
  | arr (elems : List JSON)
  | obj (kvs : List (String × JSON))

/-- Python truthiness of a decoded JSON value, used by the source test
`if content and ...`. -/
def truthy : JSON → Bool
  | .null => false
  | .bool b => b
  | .num n => n != 0
  | .str s => !s.isEmpty
  | .arr elems => !elems.isEmpty
  | .obj kvs => !kvs.isEmpty

/-- Uncaught Python exceptions that the embedded code can raise. -/
inductive PyErr where
  | jsonDecodeError
  | typeError
  | keyError
  | unboundLocal (name : String)

/-- The Python membership test `k in content` on a decoded JSON value: key
lookup for a dict, element comparison for a list, substring test for a
string, and a TypeError for every other value. -/
def pyContains (content : JSON) (k : String) : Except PyErr Bool :=
  match content with
  | .obj kvs => .ok (kvs.any (fun p => p.1 == k))
  | .arr elems => .ok (elems.any (fun x => match x with | .str s => s == k | _ => false))
  | .str s => .ok ((s.splitOn k).length > 1)
  | _ => .error .typeError

/-- The Python subscript `content[k]` on a decoded JSON value: dict lookup
(KeyError when absent), TypeError for every non-dict value. -/
def pyIndex (content : JSON) (k : String) : Except PyErr JSON :=
  match content with
  | .obj kvs =>
    match kvs.find? (fun p => p.1 == k) with
    | some p => .ok p.2
    | none => .error .keyError
  | _ => .error .typeError

/-- Assignment `d[k] = v` on a key-value list: replace the value of an
existing key, otherwise append the pair at the end (Python dict insertion
order). -/
def setKey (kvs : List (String × JSON)) (k : String) (v : JSON) : List (String × JSON) :=
  if kvs.any (fun p => p.1 == k) then kvs.map (fun p => if p.1 == k then (k, v) else p)
  else kvs ++ [(k, v)]

/-- The Python statement `row[k] = v`: only a dict accepts item assignment;
every other value raises a TypeError. -/
def pySetItem (row : JSON) (k : String) (v : JSON) : Except PyErr (List (String × JSON)) :=
  match row with
  | .obj kvs => .ok (setKey kvs k v)
  | _ => .error .typeError

/-- An HTTP request as built by the source: session.get(urljoin(url, i),
headers with the raw API key under Authorization and application/json under
Accept). -/
structure Request where
  url : String
  httpMethod : String
  authorization : String
  accept : String

/-- An HTTP response: a status code and a body.  A body of none stands for a
body that is not valid JSON, on which resp.json() raises. -/
structure Response where
  status : Nat
  body : Option JSON

/-- Everything through the last slash of a character list; empty when no
slash occurs. -/
def keepThroughLastSlash : List Char → List Char
  | [] => []
  | c :: cs =>
    let rest := keepThroughLastSlash cs
    if rest.isEmpty then (if c = '/' then ['/'] else []) else c :: rest

/-- urllib.parse.urljoin, restricted to the references this program builds:
a plain relative reference (no scheme, no authority, not starting with a
slash) replaces the final path segment of the base, and an empty reference
returns the base unchanged.  No percent-encoding is applied. -/
def urljoin (base ref : String) : String :=
  if ref.isEmpty then base else String.mk (keepThroughLastSlash base.data) ++ ref

/-- The request the dispatch loop issues for one address. -/
def reqOf (apiKey url i : String) : Request :=
  ⟨urljoin url i, "GET", apiKey, "application/json"⟩

/-- One entry of the diagnostic (stderr) channel written with eprint. -/
inductive LogEntry where
  | note (msg : String)
  | badAddress (lineNum : Nat) (addr : String)
  | responseBody (content : JSON)

/-- The observable state of one run: requests issued so far, CSV rows
written to the output (header included), the stderr diagnostics, the lines
printed to stdout, the sleeps performed, the progress-bar position and its
configured total. -/
structure RunState where
  requests : List Request
  out : List (List JSON)
  errLog : List LogEntry
  stdoutLog : List String
  sleeps : List Nat
  pbar : Nat
  pbarTotal : Nat

/-- The run state before anything has happened. -/
def emptyRun : RunState :=
  ⟨[], [], [], [], [], 0, 0⟩

/-- The fixed CSV column list fList of the source. -/
def fList : List String :=
  ["email", "valid", "result", "reason", "is_role", "is_disposable", "is_free", "did_you_mean"]

/-- The header row, as written by fh.writeheader(). -/
def headerCells : List JSON := fList.map JSON.str

/-- csv.DictWriter.writerow with restval set to the empty string and
extrasaction set to ignore: one cell per fixed column, taking the value of
that key when present and the empty string otherwise; keys outside the
column list are dropped. -/
def dictToRow (kvs : List (String × JSON)) : List JSON :=
  fList.map (fun k => ((kvs.find? (fun p => p.1 == k)).map Prod.snd).getD (JSON.str ""))

/-- Processing of the response for one address inside the dispatch loop:
decode the body (raising on invalid JSON), then on status 200 either write
the results row (with the queried address stored under email) and advance
the progress bar, or log the whole body and advance the progress bar; on
any other status print the status code and a snooze message to stdout and
sleep 10 seconds.  No branch re-issues the request. -/
def handleResponse (i : String) (resp : Response) (t : RunState) : RunState × Option PyErr :=
  match resp.body with
  | none => (t, some .jsonDecodeError)
  | some content =>
    if resp.status = 200 then
      if truthy content then
        match pyContains content "results" with
        | .error e => (t, some e)
        | .ok false => ({ t with errLog := t.errLog ++ [.responseBody content], pbar := t.pbar + 1 }, none)
        | .ok true =>
          match pyIndex content "results" with
          | .error e => (t, some e)
          | .ok row =>
            match pySetItem row "email" (.str i) with
            | .error e => (t, some e)
            | .ok kvs => ({ t with out := t.out ++ [dictToRow kvs], pbar := t.pbar + 1 }, none)
      else ({ t with errLog := t.errLog ++ [.responseBody content], pbar := t.pbar + 1 }, none)
    else
      ({ t with
          stdoutLog := t.stdoutLog ++ [toString resp.status, "Snoozing before trying again"],
          sleeps := t.sleeps ++ [10] },
        none)

/-- One iteration of the inner dispatch loop `for i in address`: build the
URL with urljoin, issue the GET request, then handle the response received
for it. -/
def processField (env : Nat → Response) (apiKey url i : String) (s : RunState) : RunState × Option PyErr :=
  handleResponse i (env s.requests.length) { s with requests := s.requests ++ [reqOf apiKey url i] }

/-- The inner dispatch loop over the fields of one CSV row; an uncaught
exception aborts the loop. -/
def processRow (env : Nat → Response) (apiKey url : String) : List String → RunState → RunState × Option PyErr
  | [], s => (s, none)
  | i :: rest, s =>
    match processField env apiKey url i s with
    | (s1, none) => processRow env apiKey url rest s1
    | (s1, some e) => (s1, some e)

/-- The outer dispatch loop `for address in f` over all CSV rows. -/
def processAddresses (env : Nat → Response) (apiKey url : String) : List (List String) → RunState → RunState × Option PyErr
  | [], s => (s, none)
  | r :: rest, s =>
    match processRow env apiKey url r s with
    | (s1, none) => processAddresses env apiKey url rest s1
    | (s1, some e) => (s1, some e)

/-- validateRecipients(f, fh, apiKey, snooze, count): configure the progress
bar with the given total and run the dispatch loops.  The snooze parameter
is accepted and ignored, as in the source, whose sleep uses the literal 10. -/
def validateRecipients (env : Nat → Response) (apiKey url : String) (f : List (List String))
    (snooze count : Nat) (s : RunState) : RunState × Option PyErr :=
  processAddresses env apiKey url f { s with pbarTotal := count }

/-- Classification of one CSV row by the precheck: syntactically OK exactly
when the row has a single field accepted by the syntax checker. -/
def rowOk (isValid : String → Bool) : List String → Bool
  | [recip] => isValid recip
  | _ => false

/-- One iteration of the precheck loop, updating the (ok, bad) counters. -/
def precheckStep (isValid : String → Bool) (acc : Nat × Nat) (r : List String) : Nat × Nat :=
  match r with
  | [recip] => if isValid recip then (acc.1 + 1, acc.2) else (acc.1, acc.2 + 1)
  | _ => (acc.1, acc.2 + 1)

/-- The precheck pass: scan every row and return the (ok, bad) counters. -/
def precheck (isValid : String → Bool) (rows : List (List String)) : Nat × Nat :=
  rows.foldl (precheckStep isValid) (0, 0)

/-- The stderr diagnostics emitted by the precheck pass: one entry per
single-field row rejected by the syntax checker, tagged with its line
number. -/
def precheckLog (isValid : String → Bool) : Nat → List (List String) → List LogEntry
  | _, [] => []
  | n, r :: rest =>
    match r with
    | [recip] =>
      if isValid recip then precheckLog isValid (n + 1) rest
      else .badAddress n recip :: precheckLog isValid (n + 1) rest
    | _ => precheckLog isValid (n + 1) rest

/-- The stderr log produced by the precheck pass: the per-address
diagnostics followed by the summary line. -/
def precheckLogs (isValid : String → Bool) (rows : List (List String)) : List LogEntry :=
  precheckLog isValid 1 rows ++
    [.note ("Scanned input, contains " ++ toString (precheck isValid rows).1 ++
      " syntactically OK and " ++ toString (precheck isValid rows).2 ++
      " bad addresses. Validating with SparkPost..")]

/-- The run state right after the header has been written: nothing dispatched
yet, the given stderr entries already logged. -/
def startState (log : List LogEntry) : RunState :=
  { requests := [], out := [headerCells], errLog := log, stdoutLog := [], sleeps := [],
    pbar := 0, pbarTotal := 0 }

/-- processFile(infile, outfile, url, apiKey, snooze, skip_precheck): when
the input is seekable and the skip flag is unset, run the precheck, log its
summary and rewind; otherwise log that the precheck is skipped and leave
the local count_ok unassigned.  Then write the CSV header and call
validateRecipients with count_ok as the progress total: when count_ok was
never assigned this reference raises UnboundLocalError.  On a normal return
the completion line is logged twice, matching the duplicated epilogue of
the source. -/
def processFile (env : Nat → Response) (isValid : String → Bool) (seekable : Bool)
    (rows : List (List String)) (url apiKey : String) (snooze : Nat) (skipPrecheck : Bool) :
    RunState × Option PyErr :=
  let pre : Option Nat × List LogEntry :=
    if seekable && !skipPrecheck then (some (precheck isValid rows).1, precheckLogs isValid rows)
    else (none, [.note "Skipping input file syntax pre-check. Validating with SparkPost.."])
  match pre.1 with
  | none => (startState pre.2, some (.unboundLocal "count_ok"))
  | some countOk =>
    match validateRecipients env apiKey url rows snooze countOk (startState pre.2) with
    | (s2, some e) => (s2, some e)
    | (s2, none) => ({ s2 with errLog := s2.errLog ++ [.note "Done", .note "Done"] }, none)

/-- Whether a decoded JSON body is an object holding a results key. -/
def hasResultsKey : JSON → Bool
  | .obj kvs => kvs.any (fun p => p.1 == "results")
  | _ => false

/-- Responses whose processing can never raise: the body decodes, and on a
success status it is an object whose results value, when present, is itself
an object, or a value that is falsy in Python. -/
def safeResponse (r : Response) : Bool :=
  match r.body with
  | none => false
  | some content =>
    if r.status = 200 then
      match content with
      | .obj kvs =>
        match kvs.find? (fun p => p.1 == "results") with
        | some p => match p.2 with | .obj _ => true | _ => false
        | none => true
      | other => !truthy other
    else true

/-- A hexadecimal digit character, uppercase. -/
def hexDigit (n : Nat) : Char :=
  if n < 10 then Char.ofNat (48 + n) else Char.ofNat (55 + n)

/-- Modelled from the spec: percent-encoding of one character, RFC 3986
style as performed by urllib.parse.quote, keeping unreserved characters and
the slash and rewriting every other character to a percent escape of its
code. -/
def percentEncodeChar (c : Char) : String :=
  if c.isAlphanum || c = '-' || c = '.' || c = '_' || c = '~' || c = '/' then String.singleton c
  else "%" ++ String.singleton (hexDigit (c.toNat / 16)) ++ String.singleton (hexDigit (c.toNat % 16))

/-- Modelled from the spec: the percent-encoded form of an address, as the
words "GET base slash percent-encoded address" require; the source itself
never percent-encodes. -/
def percentEncode (s : String) : String :=
  String.join (s.data.map percentEncodeChar)

/-- A sample configured endpoint, with the fixed path the main code appends
to the host. -/
def sampleUrl : String := "https://api.sparkpost.com/api/v1/recipient-validation/single/"

/-!  General helper lemmas about lists of key-value pairs. -/

theorem any_true_of_find?_some {α : Type} {p : α → Bool} :
    ∀ {l : List α} {a : α}, l.find? p = some a → l.any p = true := by
  intro l
  induction l with
  | nil => intro a h; simp [List.find?] at h
  | cons x xs ih =>
    intro a h
    cases hx : p x with
    | true => simp [List.any_cons, hx]
    | false =>
      rw [List.find?_cons_of_neg _ (by simp [hx])] at h
      simp only [List.any_cons, hx, Bool.false_or]
      exact ih h

theorem any_false_of_find?_none {α : Type} {p : α → Bool} :
    ∀ {l : List α}, l.find? p = none → l.any p = false := by
  intro l
  induction l with
  | nil => intro _; simp
  | cons x xs ih =>
    intro h
    cases hx : p x with
    | true => rw [List.find?_cons_of_pos _ hx] at h; exact absurd h (by simp)
    | false =>
      rw [List.find?_cons_of_neg _ (by simp [hx])] at h
      simp only [List.any_cons, hx, Bool.false_or]
      exact ih h

theorem isEmpty_false_of_any_true {α : Type} {p : α → Bool} {l : List α}
    (h : l.any p = true) : l.isEmpty = false := by
  cases l with
  | nil => simp at h
  | cons x xs => rfl

theorem bool_eq_false_of_not_true {b : Bool} (h : ¬ b = true) : b = false := by
  cases b with
  | false => rfl
  | true => exact absurd rfl h

theorem find?_map_replace (k : String) (v : JSON) :
    ∀ kvs : List (String × JSON), kvs.any (fun p => p.1 == k) = true →
      (kvs.map (fun p => if p.1 == k then (k, v) else p)).find? (fun p => p.1 == k) = some (k, v) := by
  intro kvs
  induction kvs with
  | nil => intro h; simp at h
  | cons q qs ih =>
    intro h
    rw [List.map_cons]
    cases hq : (q.1 == k) with
    | true =>
      rw [if_pos rfl]
      exact List.find?_cons_of_pos _ (by simp)
    | false =>
      have h' : qs.any (fun p => p.1 == k) = true := by
        simpa [List.any_cons, hq] using h
      rw [if_neg (by simp), List.find?_cons_of_neg _ (by simp [hq])]
      exact ih h'

theorem find?_append_singleton (k : String) (v : JSON) :
    ∀ kvs : List (String × JSON), kvs.any (fun p => p.1 == k) = false →
      (kvs ++ [(k, v)]).find? (fun p => p.1 == k) = some (k, v) := by
  intro kvs
  induction kvs with
  | nil =>
    intro _
    rw [List.nil_append]
    exact List.find?_cons_of_pos _ (by simp)
  | cons q qs ih =>
    intro h
    have hq : (q.1 == k) = false := by
      cases hq : (q.1 == k) with
      | false => rfl
      | true => rw [List.any_cons, hq] at h; exact absurd h (by simp)
    have h' : qs.any (fun p => p.1 == k) = false := by
      simpa [List.any_cons, hq] using h
    rw [List.cons_append, List.find?_cons_of_neg _ (by simp [hq])]
    exact ih h'

theorem find?_setKey_self (kvs : List (String × JSON)) (k : String) (v : JSON) :
    (setKey kvs k v).find? (fun p => p.1 == k) = some (k, v) := by
  unfold setKey
  by_cases h : kvs.any (fun p => p.1 == k) = true
  · rw [if_pos h]; exact find?_map_replace k v kvs h
  · rw [if_neg h]
    exact find?_append_singleton k v kvs (bool_eq_false_of_not_true h)

theorem find?_map_replace_other (k c : String) (v : JSON) (hck : (c == k) = false) :
    ∀ kvs : List (String × JSON),
      (kvs.map (fun p => if p.1 == k then (k, v) else p)).find? (fun p => p.1 == c) =
        kvs.find? (fun p => p.1 == c) := by
  have hkc : (k == c) = false := by
    have hne : c ≠ k := beq_eq_false_iff_ne.mp hck
    exact beq_eq_false_iff_ne.mpr (Ne.symm hne)
  intro kvs
  induction kvs with
  | nil => rfl
  | cons q qs ih =>
    rw [List.map_cons]
    cases hq : (q.1 == k) with
    | true =>
      have hq1 : q.1 = k := beq_iff_eq.mp hq
      have hqc : (q.1 == c) = false := by rw [hq1]; exact hkc
      rw [if_pos rfl, List.find?_cons_of_neg _ (by simp [hkc]),
        List.find?_cons_of_neg _ (by simp [hqc])]
      exact ih
    | false =>
      rw [if_neg (by simp)]
      cases hqc : (q.1 == c) with
      | true =>
        have e1 : List.find? (fun p => p.1 == c)
            (q :: List.map (fun p => if (p.1 == k) = true then (k, v) else p) qs) = some q := by
          apply List.find?_cons_of_pos
          exact hqc
        have e2 : List.find? (fun p => p.1 == c) (q :: qs) = some q := by
          apply List.find?_cons_of_pos
          exact hqc
        rw [e1, e2]
      | false =>
        rw [List.find?_cons_of_neg _ (by simp [hqc]), List.find?_cons_of_neg _ (by simp [hqc])]
        exact ih

theorem find?_setKey_other (k c : String) (v : JSON) (hck : (c == k) = false)
    (kvs : List (String × JSON)) :
    (setKey kvs k v).find? (fun p => p.1 == c) = kvs.find? (fun p => p.1 == c) := by
  have hkc : (k == c) = false := by
    have hne : c ≠ k := beq_eq_false_iff_ne.mp hck
    exact beq_eq_false_iff_ne.mpr (Ne.symm hne)
  unfold setKey
  by_cases h : kvs.any (fun p => p.1 == k) = true
  · rw [if_pos h]; exact find?_map_replace_other k c v hck kvs
  · rw [if_neg h]
    rw [List.find?_append]
    cases hf : kvs.find? (fun p => p.1 == c) with
    | some a => rfl
    | none =>
      rw [List.find?_cons_of_neg _ (by simp [hkc])]
      rfl

theorem dictToRow_head (kvs : List (String × JSON)) (v : JSON) :
    (dictToRow (setKey kvs "email" v)).head? = some v := by
  unfold dictToRow fList
  simp only [List.map, List.head?]
  rw [find?_setKey_self]
  rfl

theorem dictToRow_setKey_email (payload : List (String × JSON)) (i : String) :
    dictToRow (setKey payload "email" (JSON.str i)) =
      fList.map (fun k => if k == "email" then JSON.str i
        else ((payload.find? (fun p => p.1 == k)).map Prod.snd).getD (JSON.str "")) := by
  unfold dictToRow
  refine List.map_congr_left ?_
  intro k _
  by_cases hk : (k == "email") = true
  · have : k = "email" := beq_iff_eq.mp hk
    subst this
    rw [find?_setKey_self, hk]
    rfl
  · rw [find?_setKey_other "email" k (JSON.str i) (by simpa using hk) payload]
    simp [hk]

/-!  Lemmas about the processing of one response. -/

theorem pySetItem_obj {row : JSON} {k : String} {v : JSON} {kvs : List (String × JSON)}
    (h : pySetItem row k v = .ok kvs) :
    ∃ rkvs, row = .obj rkvs ∧ kvs = setKey rkvs k v := by
  cases row with
  | obj rkvs =>
    simp only [pySetItem, Except.ok.injEq] at h
    exact ⟨rkvs, rfl, h.symm⟩
  | null => simp [pySetItem] at h
  | bool b => simp [pySetItem] at h
  | num n => simp [pySetItem] at h
  | str s => simp [pySetItem] at h
  | arr es => simp [pySetItem] at h

theorem handleResponse_requests (i : String) (resp : Response) (t : RunState) :
    (handleResponse i resp t).1.requests = t.requests := by
  unfold handleResponse
  repeat' split
  all_goals rfl

theorem handleResponse_out (i : String) (resp : Response) (t : RunState) :
    ∃ u, (handleResponse i resp t).1.out = t.out ++ u ∧
      ∀ cells ∈ u, cells.head? = some (JSON.str i) := by
  unfold handleResponse
  repeat' split
  all_goals first
    | (rename_i kvs heq
       refine ⟨[dictToRow kvs], rfl, ?_⟩
       intro cells hc
       rw [List.mem_singleton] at hc
       subst hc
       obtain ⟨rkvs, hrow, hkvs⟩ := pySetItem_obj heq
       rw [hkvs]
       exact dictToRow_head rkvs (JSON.str i))
    | exact ⟨[], by simp, by intro cells hc; simp at hc⟩

theorem handleResponse_safe (i : String) (resp : Response) (t : RunState)
    (h : safeResponse resp = true) : (handleResponse i resp t).2 = none := by
  obtain ⟨status, body⟩ := resp
  cases body with
  | none => exact absurd h (by simp [safeResponse])
  | some content =>
    unfold safeResponse at h
    unfold handleResponse
    dsimp only at h ⊢
    by_cases hs : status = 200
    · subst hs
      rw [if_pos rfl] at h ⊢
      cases htr : truthy content with
      | false => rw [if_neg (by simp)]
      | true =>
        rw [if_pos rfl]
        cases content with
        | obj kvs =>
          dsimp only at h
          cases hf : kvs.find? (fun p => p.1 == "results") with
          | none =>
            have hany := any_false_of_find?_none hf
            have hpc : pyContains (JSON.obj kvs) "results" = .ok false := by
              simp [pyContains, hany]
            rw [hpc]
          | some p =>
            have hany := any_true_of_find?_some hf
            have hpc : pyContains (JSON.obj kvs) "results" = .ok true := by
              simp [pyContains, hany]
            rw [hpc]
            have hpi : pyIndex (JSON.obj kvs) "results" = .ok p.2 := by
              simp [pyIndex, hf]
            rw [hpi]
            rw [hf] at h
            dsimp only at h
            cases hv : p.2 with
            | obj rk => rfl
            | null => rw [hv] at h; simp at h
            | bool b => rw [hv] at h; simp at h
            | num n => rw [hv] at h; simp at h
            | str sv => rw [hv] at h; simp at h
            | arr es => rw [hv] at h; simp at h
        | null => simp [truthy] at htr
        | bool b => dsimp only at h; rw [htr] at h; simp at h
        | num n => dsimp only at h; rw [htr] at h; simp at h
        | str sv => dsimp only at h; rw [htr] at h; simp at h
        | arr es => dsimp only at h; rw [htr] at h; simp at h
    · rw [if_neg hs]

/-!  Lemmas about the dispatch loops. -/

theorem processField_requests (env : Nat → Response) (apiKey url i : String) (s : RunState) :
    (processField env apiKey url i s).1.requests = s.requests ++ [reqOf apiKey url i] := by
  unfold processField
  rw [handleResponse_requests]

theorem processField_out (env : Nat → Response) (apiKey url i : String) (s : RunState) :
    ∃ u, (processField env apiKey url i s).1.out = s.out ++ u ∧
      ∀ cells ∈ u, cells.head? = some (JSON.str i) := by
  unfold processField
  exact handleResponse_out i _ _

theorem processField_safe (env : Nat → Response) (apiKey url i : String) (s : RunState)
    (henv : ∀ n, safeResponse (env n) = true) :
    (processField env apiKey url i s).2 = none := by
  unfold processField
  exact handleResponse_safe i _ _ (henv s.requests.length)

theorem processRow_safe (env : Nat → Response) (apiKey url : String)
    (henv : ∀ n, safeResponse (env n) = true) :
    ∀ (r : List String) (s : RunState), (processRow env apiKey url r s).2 = none := by
  intro r
  induction r with
  | nil => intro s; rfl
  | cons i rest ih =>
    intro s
    unfold processRow
    cases hp : processField env apiKey url i s with
    | mk s1 o =>
      have ho : o = none := by
        have h2 := processField_safe env apiKey url i s henv
        rw [hp] at h2
        exact h2
      subst ho
      exact ih s1

theorem processAddresses_safe (env : Nat → Response) (apiKey url : String)
    (henv : ∀ n, safeResponse (env n) = true) :
    ∀ (rows : List (List String)) (s : RunState), (processAddresses env apiKey url rows s).2 = none := by
  intro rows
  induction rows with
  | nil => intro s; rfl
  | cons r rest ih =>
    intro s
    unfold processAddresses
    cases hp : processRow env apiKey url r s with
    | mk s1 o =>
      have ho : o = none := by
        have h2 := processRow_safe env apiKey url henv r s
        rw [hp] at h2
        exact h2
      subst ho
      exact ih s1

theorem processRow_requests (env : Nat → Response) (apiKey url : String) :
    ∀ (r : List String) (s s2 : RunState),
      processRow env apiKey url r s = (s2, none) →
      s2.requests = s.requests ++ r.map (reqOf apiKey url) := by
  intro r
  induction r with
  | nil =>
    intro s s2 h
    have h1 : s = s2 := by
      have h0 := congrArg Prod.fst h
      simpa using h0
    subst h1
    simp
  | cons i rest ih =>
    intro s s2 h
    unfold processRow at h
    cases hp : processField env apiKey url i s with
    | mk s1 o =>
      rw [hp] at h
      cases o with
      | none =>
        have h2 := ih s1 s2 h
        have h3 : s1.requests = s.requests ++ [reqOf apiKey url i] := by
          have h4 := processField_requests env apiKey url i s
          rw [hp] at h4
          exact h4
        rw [h2, h3, List.map_cons, List.append_assoc]
        rfl
      | some e => simp at h

theorem processAddresses_requests (env : Nat → Response) (apiKey url : String) :
    ∀ (rows : List (List String)) (s s2 : RunState),
      processAddresses env apiKey url rows s = (s2, none) →
      s2.requests = s.requests ++ rows.flatten.map (reqOf apiKey url) := by
  intro rows
  induction rows with
  | nil =>
    intro s s2 h
    have h1 : s = s2 := by
      have h0 := congrArg Prod.fst h
      simpa using h0
    subst h1
    simp
  | cons r rest ih =>
    intro s s2 h
    unfold processAddresses at h
    cases hp : processRow env apiKey url r s with
    | mk s1 o =>
      rw [hp] at h
      cases o with
      | none =>
        have h2 := ih s1 s2 h
        have h3 := processRow_requests env apiKey url r s s1 hp
        rw [h2, h3, List.flatten_cons, List.map_append, List.append_assoc]
      | some e => simp at h

theorem processRow_out (env : Nat → Response) (apiKey url : String) :
    ∀ (r : List String) (s : RunState),
      ∃ u, (processRow env apiKey url r s).1.out = s.out ++ u ∧
        ∀ cells ∈ u, ∃ i, i ∈ r ∧ cells.head? = some (JSON.str i) := by
  intro r
  induction r with
  | nil =>
    intro s
    refine ⟨[], ?_, by intro c hc; simp at hc⟩
    show s.out = s.out ++ []
    simp
  | cons i rest ih =>
    intro s
    unfold processRow
    cases hp : processField env apiKey url i s with
    | mk s1 o =>
      obtain ⟨u0, hu0, hmem0⟩ : ∃ u, s1.out = s.out ++ u ∧
          ∀ cells ∈ u, cells.head? = some (JSON.str i) := by
        have h := processField_out env apiKey url i s
        rw [hp] at h
        exact h
      cases o with
      | none =>
        obtain ⟨u1, hu1, hmem1⟩ := ih s1
        refine ⟨u0 ++ u1, ?_, ?_⟩
        · show (processRow env apiKey url rest s1).1.out = s.out ++ (u0 ++ u1)
          rw [hu1, hu0, List.append_assoc]
        · intro cells hc
          rcases List.mem_append.mp hc with hc0 | hc1
          · exact ⟨i, List.mem_cons_self i rest, hmem0 cells hc0⟩
          · obtain ⟨j, hj, hh⟩ := hmem1 cells hc1
            exact ⟨j, List.mem_cons_of_mem i hj, hh⟩
      | some e =>
        refine ⟨u0, ?_, ?_⟩
        · show s1.out = s.out ++ u0
          exact hu0
        · intro cells hc
          exact ⟨i, List.mem_cons_self i rest, hmem0 cells hc⟩

theorem processAddresses_out (env : Nat → Response) (apiKey url : String) :
    ∀ (rows : List (List String)) (s : RunState),
      ∃ u, (processAddresses env apiKey url rows s).1.out = s.out ++ u ∧
        ∀ cells ∈ u, ∃ i, i ∈ rows.flatten ∧ cells.head? = some (JSON.str i) := by
  intro rows
  induction rows with
  | nil =>
    intro s
    refine ⟨[], ?_, by intro c hc; simp at hc⟩
    show s.out = s.out ++ []
    simp
  | cons r rest ih =>
    intro s
    unfold processAddresses
    cases hp : processRow env apiKey url r s with
    | mk s1 o =>
      obtain ⟨u0, hu0, hmem0⟩ : ∃ u, s1.out = s.out ++ u ∧
          ∀ cells ∈ u, ∃ i, i ∈ r ∧ cells.head? = some (JSON.str i) := by
        have h := processRow_out env apiKey url r s
        rw [hp] at h
        exact h
      cases o with
      | none =>
        obtain ⟨u1, hu1, hmem1⟩ := ih s1
        refine ⟨u0 ++ u1, ?_, ?_⟩
        · show (processAddresses env apiKey url rest s1).1.out = s.out ++ (u0 ++ u1)
          rw [hu1, hu0, List.append_assoc]
        · intro cells hc
          rcases List.mem_append.mp hc with hc0 | hc1
          · obtain ⟨j, hj, hh⟩ := hmem0 cells hc0
            exact ⟨j, by rw [List.flatten_cons]; exact List.mem_append.mpr (Or.inl hj), hh⟩
          · obtain ⟨j, hj, hh⟩ := hmem1 cells hc1
            exact ⟨j, by rw [List.flatten_cons]; exact List.mem_append.mpr (Or.inr hj), hh⟩
      | some e =>
        refine ⟨u0, ?_, ?_⟩
        · show s1.out = s.out ++ u0
          exact hu0
        · intro cells hc
          obtain ⟨j, hj, hh⟩ := hmem0 cells hc
          exact ⟨j, by rw [List.flatten_cons]; exact List.mem_append.mpr (Or.inl hj), hh⟩

/-!  Lemmas about the precheck pass. -/

theorem precheck_foldl (isValid : String → Bool) :
    ∀ (rows : List (List String)) (a b : Nat),
      rows.foldl (precheckStep isValid) (a, b) =
        (a + rows.countP (fun r => rowOk isValid r),
          b + rows.countP (fun r => !rowOk isValid r)) := by
  intro rows
  induction rows with
  | nil => intro a b; simp
  | cons r rest ih =>
    intro a b
    rw [List.foldl_cons, List.countP_cons, List.countP_cons]
    rcases r with _ | ⟨x, _ | ⟨y, ys⟩⟩
    · show rest.foldl (precheckStep isValid) (a, b + 1) = _
      rw [ih]
      rw [Prod.ext_iff]
      constructor <;> simp [rowOk] <;> omega
    · show rest.foldl (precheckStep isValid)
        (if isValid x then (a + 1, b) else (a, b + 1)) = _
      by_cases hx : isValid x = true
      · rw [if_pos hx, ih, Prod.ext_iff]
        constructor <;> simp [rowOk, hx] <;> omega
      · rw [if_neg hx, ih, Prod.ext_iff]
        have hx' : isValid x = false := bool_eq_false_of_not_true hx
        constructor <;> simp [rowOk, hx'] <;> omega
    · show rest.foldl (precheckStep isValid) (a, b + 1) = _
      rw [ih]
      rw [Prod.ext_iff]
      constructor <;> simp [rowOk] <;> omega

theorem precheck_eq_countP (isValid : String → Bool) (rows : List (List String)) :
    precheck isValid rows =
      (rows.countP (fun r => rowOk isValid r), rows.countP (fun r => !rowOk isValid r)) := by
  unfold precheck
  rw [precheck_foldl]
  simp

/-!  Claim theorems. -/

/-- Claim C1: the spec requires a non-200 response to be logged, followed by
the fixed 10-unit cooldown, and then a retry of the same address, with a row
eventually emitted once a 200 response arrives.  The code contradicts this
and its own log line: in the run below the first request (for the first
address) receives a 503, every later request would receive a 200 with a
valid payload, yet the final state shows exactly one request per address,
the 503 status and the snooze message logged and the 10-unit sleep
performed, no retry request for the first address, no output row for it and
no progress-bar advance: the address is dropped, refuting the claimed
indefinite retry. -/
theorem nonOk_status_logged_snoozed_never_retried :
    validateRecipients
        (fun n => if n = 0 then ⟨503, some (.obj [])⟩
          else ⟨200, some (.obj [("results", .obj [("valid", .bool true)])])⟩)
        "API-KEY" sampleUrl [["a@b.com"], ["b@b.com"]] 10 1 emptyRun =
      (⟨[reqOf "API-KEY" sampleUrl "a@b.com", reqOf "API-KEY" sampleUrl "b@b.com"],
        [[JSON.str "b@b.com", JSON.bool true, JSON.str "", JSON.str "", JSON.str "",
          JSON.str "", JSON.str "", JSON.str ""]],
        [], ["503", "Snoozing before trying again"], [10], 1, 1⟩, none) := by
  rfl

/-- Claim C2: the spec requires a run with the precheck skipped (skip flag
set, or input not seekable) to log the skip and still dispatch every
address, completing normally.  The code contradicts this: in both skip
situations it logs the skip line and writes the CSV header, but then raises
UnboundLocalError on the never-assigned local count_ok before a single
request is dispatched. -/
theorem skipped_precheck_raises_unbound_local :
    (processFile (fun _ => ⟨200, some (.obj [("results", .obj [])])⟩) (fun _ => true)
        true [["a@b.com"]] sampleUrl "API-KEY" 10 true =
      (⟨[], [headerCells],
        [.note "Skipping input file syntax pre-check. Validating with SparkPost.."],
        [], [], 0, 0⟩, some (.unboundLocal "count_ok"))) ∧
    (processFile (fun _ => ⟨200, some (.obj [("results", .obj [])])⟩) (fun _ => true)
        false [["a@b.com"]] sampleUrl "API-KEY" 10 false =
      (⟨[], [headerCells],
        [.note "Skipping input file syntax pre-check. Validating with SparkPost.."],
        [], [], 0, 0⟩, some (.unboundLocal "count_ok"))) :=
  ⟨rfl, rfl⟩

/-- Claim C3, counterexample: the claim says that for every sequence of API
responses, including bodies that are not valid JSON under any HTTP status,
nothing but a fatal Init error crashes the process.  In the run below the
single response is a 503 whose body is not valid JSON: the dispatch loop
calls resp.json() before looking at the status and the decode error
propagates uncaught, crashing the run with nothing logged. -/
theorem undecodable_body_crashes_at_any_status :
    validateRecipients (fun _ => ⟨503, none⟩) "API-KEY" sampleUrl [["a@b.com"]] 10 1 emptyRun =
      (⟨[reqOf "API-KEY" sampleUrl "a@b.com"], [], [], [], [], 0, 1⟩, some .jsonDecodeError) := by
  rfl

/-- Claim C3 amended: when every response body decodes to a safe JSON value
(an object whose results value, if present, is itself an object, or a falsy
value), no error crashes the dispatch: malformed rows, syntax failures,
non-200 statuses and missing-results bodies are all handled locally, and a
full processFile run with the precheck enabled finishes without an uncaught
exception. -/
theorem safe_bodies_never_crash :
    ∀ (env : Nat → Response) (isValid : String → Bool) (rows : List (List String))
      (url apiKey : String) (snooze : Nat),
      (∀ n, safeResponse (env n) = true) →
      (processFile env isValid true rows url apiKey snooze false).2 = none := by
  intro env isValid rows url apiKey snooze henv
  show (match validateRecipients env apiKey url rows snooze (precheck isValid rows).1
      (startState (precheckLogs isValid rows)) with
    | (s2, some e) => (s2, some e)
    | (s2, none) =>
      ({ s2 with errLog := s2.errLog ++ [LogEntry.note "Done", LogEntry.note "Done"] },
        none)).2 = none
  cases hv : validateRecipients env apiKey url rows snooze (precheck isValid rows).1
      (startState (precheckLogs isValid rows)) with
  | mk s2 o =>
    have ho : o = none := by
      have h2 := processAddresses_safe env apiKey url henv rows
        { startState (precheckLogs isValid rows) with pbarTotal := (precheck isValid rows).1 }
      rw [show processAddresses env apiKey url rows
          { startState (precheckLogs isValid rows) with pbarTotal := (precheck isValid rows).1 } =
          (s2, o) from hv] at h2
      exact h2
    subst ho
    rfl

/-- Claim C3 amended, witness. -/
theorem safe_bodies_never_crash_app :
    (processFile (fun _ => ⟨200, some (.obj [])⟩) (fun _ => true) true [["a@b.com"]]
        sampleUrl "API-KEY" 10 false).2 = none :=
  safe_bodies_never_crash (fun _ => ⟨200, some (.obj [])⟩) (fun _ => true) [["a@b.com"]]
    sampleUrl "API-KEY" 10 (fun _ => rfl)

/-- Claim C4, counterexample: the claim says every written row has a
non-empty email field.  A CSV row can carry an empty field (for example the
input line consisting of one quoted empty string), the code queries the
empty address and, when the API answers 200 with a results object, writes a
row whose email cell is the empty string. -/
theorem empty_address_writes_empty_email_row :
    validateRecipients (fun _ => ⟨200, some (.obj [("results", .obj [])])⟩) "API-KEY" sampleUrl
        [[""]] 10 1 emptyRun =
      (⟨[reqOf "API-KEY" sampleUrl ""],
        [[JSON.str "", JSON.str "", JSON.str "", JSON.str "", JSON.str "", JSON.str "",
          JSON.str "", JSON.str ""]], [], [], [], 1, 1⟩, none) ∧
    ([JSON.str "", JSON.str "", JSON.str "", JSON.str "", JSON.str "", JSON.str "",
      JSON.str "", JSON.str ""] : List JSON).head? = some (JSON.str "") :=
  ⟨rfl, rfl⟩

/-- Claim C4 amended: every row written during dispatch has its email field
equal to one of the addresses of the input that was queried; in particular
the field is non-empty exactly when that queried CSV field is non-empty. -/
theorem rows_email_is_queried_address :
    ∀ (env : Nat → Response) (apiKey url : String) (f : List (List String))
      (snooze count : Nat) (cells : List JSON),
      cells ∈ (validateRecipients env apiKey url f snooze count emptyRun).1.out →
      ∃ i, i ∈ f.flatten ∧ cells.head? = some (JSON.str i) := by
  intro env apiKey url f snooze count cells hc
  obtain ⟨u, hu, hmem⟩ := processAddresses_out env apiKey url f
    { emptyRun with pbarTotal := count }
  have hc2 : cells ∈ ({ emptyRun with pbarTotal := count } : RunState).out ++ u := by
    rw [← hu]
    exact hc
  have hc3 : cells ∈ ([] : List (List JSON)) ++ u := hc2
  rw [List.nil_append] at hc3
  exact hmem cells hc3

/-- Claim C4 amended, witness. -/
theorem rows_email_is_queried_address_app :
    ∃ i, i ∈ [["q@w.e"]].flatten ∧
      ([JSON.str "q@w.e", JSON.str "", JSON.str "", JSON.str "", JSON.str "", JSON.str "",
        JSON.str "", JSON.str ""] : List JSON).head? = some (JSON.str i) := by
  apply rows_email_is_queried_address (fun _ => ⟨200, some (.obj [("results", .obj [])])⟩)
    "API-KEY" sampleUrl [["q@w.e"]] 10 0
  have hout : (validateRecipients (fun _ => ⟨200, some (.obj [("results", .obj [])])⟩)
      "API-KEY" sampleUrl [["q@w.e"]] 10 0 emptyRun).1.out =
      [[JSON.str "q@w.e", JSON.str "", JSON.str "", JSON.str "", JSON.str "", JSON.str "",
        JSON.str "", JSON.str ""]] := rfl
  rw [hout]
  exact List.mem_singleton.mpr rfl

/-- Claim C5, counterexample: the claim quantifies over every 200 response
whose JSON body lacks a results key.  The array body below has no keys at
all, yet because the Python membership test finds the string inside the
array and list indexing by a string then raises, the run crashes with a
TypeError: nothing is logged, no row is written and the progress counter
does not advance, contradicting the claimed log-skip-advance behaviour. -/
theorem nonobject_body_without_results_key_crashes :
    hasResultsKey (JSON.arr [JSON.str "results"]) = false ∧
    validateRecipients (fun _ => ⟨200, some (.arr [.str "results"])⟩) "API-KEY" sampleUrl
        [["a@b.com"]] 10 1 emptyRun =
      (⟨[reqOf "API-KEY" sampleUrl "a@b.com"], [], [], [], [], 0, 1⟩, some .typeError) :=
  ⟨rfl, rfl⟩

/-- Claim C5 amended: for every 200 response whose JSON body is an object
lacking a results key (empty or not), the dispatch step logs the whole body
to the error channel, writes no output row, performs no sleep and issues no
further request for the address, advances the progress counter by one and
raises nothing; the address is then left behind for good. -/
theorem object_body_without_results_logged_and_skipped :
    ∀ (env : Nat → Response) (apiKey url i : String) (s : RunState)
      (ckvs : List (String × JSON)),
      env s.requests.length = ⟨200, some (.obj ckvs)⟩ →
      ckvs.any (fun p => p.1 == "results") = false →
      processField env apiKey url i s =
        ({ s with
            requests := s.requests ++ [reqOf apiKey url i],
            errLog := s.errLog ++ [.responseBody (.obj ckvs)],
            pbar := s.pbar + 1 }, none) := by
  intro env apiKey url i s ckvs henv hany
  unfold processField
  rw [henv]
  unfold handleResponse
  dsimp only
  rw [if_pos rfl]
  cases ckvs with
  | nil =>
    rw [if_neg (by simp [truthy])]
  | cons q qs =>
    rw [if_pos (by simp [truthy])]
    have hpc : pyContains (JSON.obj (q :: qs)) "results" = .ok false := by
      simp only [pyContains]
      rw [hany]
    rw [hpc]

/-- Claim C5 amended, witness. -/
theorem object_body_without_results_logged_and_skipped_app :
    processField (fun _ => ⟨200, some (.obj [])⟩) "API-KEY" sampleUrl "a@b.com" emptyRun =
      ({ emptyRun with
          requests := emptyRun.requests ++ [reqOf "API-KEY" sampleUrl "a@b.com"],
          errLog := emptyRun.errLog ++ [.responseBody (.obj [])],
          pbar := emptyRun.pbar + 1 }, none) :=
  object_body_without_results_logged_and_skipped (fun _ => ⟨200, some (.obj [])⟩)
    "API-KEY" sampleUrl "a@b.com" emptyRun [] rfl rfl

/-- Claim C6, counterexample: the claim says every payload field matching
the fixed column set appears verbatim in the row.  The column email is in
that set; when the payload itself carries an email field, the code
overwrites it with the queried address, so the payload value appears
nowhere in the written row. -/
theorem payload_email_field_not_round_tripped :
    validateRecipients (fun _ => ⟨200, some (.obj [("results",
        .obj [("email", .str "spoof@x.y"), ("valid", .bool true)])])⟩) "API-KEY" sampleUrl
        [["a@b.com"]] 10 1 emptyRun =
      (⟨[reqOf "API-KEY" sampleUrl "a@b.com"],
        [[JSON.str "a@b.com", JSON.bool true, JSON.str "", JSON.str "", JSON.str "",
          JSON.str "", JSON.str "", JSON.str ""]], [], [], [], 1, 1⟩, none) ∧
    JSON.str "spoof@x.y" ∉ ([JSON.str "a@b.com", JSON.bool true, JSON.str "", JSON.str "",
        JSON.str "", JSON.str "", JSON.str "", JSON.str ""] : List JSON) := by
  refine ⟨rfl, ?_⟩
  simp

/-- Claim C6 amended: the output always starts with the single header row,
written before any result row; and for a successful payload the written row
is the projection onto the fixed column list in which the email cell is the
queried address, every other fixed column present in the payload keeps its
payload value verbatim, absent fixed columns become the empty string and
payload fields outside the column list are dropped. -/
theorem header_first_and_results_projection :
    (∀ (env : Nat → Response) (isValid : String → Bool) (seekable : Bool)
        (rows : List (List String)) (url apiKey : String) (snooze : Nat) (skipPrecheck : Bool),
      ∃ rest, (processFile env isValid seekable rows url apiKey snooze skipPrecheck).1.out =
        headerCells :: rest) ∧
    (∀ (env : Nat → Response) (apiKey url i : String) (s : RunState)
        (ckvs payload : List (String × JSON)),
      env s.requests.length = ⟨200, some (.obj ckvs)⟩ →
      ckvs.find? (fun p => p.1 == "results") = some ("results", .obj payload) →
      processField env apiKey url i s =
        ({ s with
            requests := s.requests ++ [reqOf apiKey url i],
            out := s.out ++ [fList.map (fun k => if k == "email" then JSON.str i
              else ((payload.find? (fun p => p.1 == k)).map Prod.snd).getD (JSON.str ""))],
            pbar := s.pbar + 1 }, none)) := by
  constructor
  · intro env isValid seekable rows url apiKey snooze skipPrecheck
    cases seekable with
    | false => exact ⟨[], rfl⟩
    | true =>
      cases skipPrecheck with
      | true => exact ⟨[], rfl⟩
      | false =>
        show ∃ rest, (match validateRecipients env apiKey url rows snooze
            (precheck isValid rows).1 (startState (precheckLogs isValid rows)) with
          | (s2, some e) => (s2, some e)
          | (s2, none) =>
            ({ s2 with errLog := s2.errLog ++ [LogEntry.note "Done", LogEntry.note "Done"] },
              none)).1.out =
          headerCells :: rest
        obtain ⟨u, hu, _⟩ := processAddresses_out env apiKey url rows
          { startState (precheckLogs isValid rows) with pbarTotal := (precheck isValid rows).1 }
        cases hv : validateRecipients env apiKey url rows snooze
            (precheck isValid rows).1 (startState (precheckLogs isValid rows)) with
        | mk s2 o =>
          have hout : s2.out = headerCells :: u := by
            rw [show processAddresses env apiKey url rows
                { startState (precheckLogs isValid rows) with
                  pbarTotal := (precheck isValid rows).1 } = (s2, o) from hv] at hu
            exact hu
          cases o with
          | some e => exact ⟨u, hout⟩
          | none => exact ⟨u, hout⟩
  · intro env apiKey url i s ckvs payload henv hf
    have hany := any_true_of_find?_some hf
    unfold processField
    rw [henv]
    unfold handleResponse
    dsimp only
    rw [if_pos rfl]
    rw [if_pos (show truthy (JSON.obj ckvs) = true by
      simp [truthy, isEmpty_false_of_any_true hany])]
    have hpc : pyContains (JSON.obj ckvs) "results" = .ok true := by
      simp only [pyContains]
      rw [hany]
    rw [hpc]
    have hpi : pyIndex (JSON.obj ckvs) "results" = .ok (JSON.obj payload) := by
      simp only [pyIndex]
      rw [hf]
    rw [hpi]
    rw [← dictToRow_setKey_email payload i]
    rfl

/-- Claim C6 amended, witness. -/
theorem header_first_and_results_projection_app :
    (∃ rest, (processFile (fun _ => ⟨200, some (.obj [])⟩) (fun _ => true) true [["a@b.com"]]
        sampleUrl "API-KEY" 10 false).1.out = headerCells :: rest) ∧
    processField (fun _ => ⟨200, some (.obj [("results", .obj [("valid", .bool true)])])⟩)
        "API-KEY" sampleUrl "a@b.com" emptyRun =
      ({ emptyRun with
          requests := emptyRun.requests ++ [reqOf "API-KEY" sampleUrl "a@b.com"],
          out := emptyRun.out ++ [fList.map (fun k => if k == "email" then JSON.str "a@b.com"
            else ((([("valid", JSON.bool true)] : List (String × JSON)).find?
              (fun p => p.1 == k)).map Prod.snd).getD (JSON.str ""))],
          pbar := emptyRun.pbar + 1 }, none) :=
  ⟨(header_first_and_results_projection).1 (fun _ => ⟨200, some (.obj [])⟩) (fun _ => true)
      true [["a@b.com"]] sampleUrl "API-KEY" 10 false,
    (header_first_and_results_projection).2
      (fun _ => ⟨200, some (.obj [("results", .obj [("valid", .bool true)])])⟩)
      "API-KEY" sampleUrl "a@b.com" emptyRun
      [("results", .obj [("valid", .bool true)])] [("valid", .bool true)] rfl rfl⟩

/-- Claim C7: on a seekable input with the precheck enabled, the input is
re-read from its start by the dispatch phase (the rewind), and when the run
finishes without an uncaught exception the requests issued are exactly one
per CSV field of the whole input, in order, for every syntax checker
whatsoever: addresses the precheck classified as bad are dispatched all the
same, so the precheck never filters dispatch. -/
theorem precheck_is_advisory_every_address_dispatched :
    ∀ (env : Nat → Response) (isValid : String → Bool) (rows : List (List String))
      (url apiKey : String) (snooze : Nat),
      (processFile env isValid true rows url apiKey snooze false).2 = none →
      (processFile env isValid true rows url apiKey snooze false).1.requests =
        rows.flatten.map (reqOf apiKey url) := by
  intro env isValid rows url apiKey snooze h
  revert h
  show (match validateRecipients env apiKey url rows snooze (precheck isValid rows).1
      (startState (precheckLogs isValid rows)) with
    | (s2, some e) => (s2, some e)
    | (s2, none) =>
      ({ s2 with errLog := s2.errLog ++ [LogEntry.note "Done", LogEntry.note "Done"] },
        none)).2 = none →
    (match validateRecipients env apiKey url rows snooze (precheck isValid rows).1
      (startState (precheckLogs isValid rows)) with
    | (s2, some e) => (s2, some e)
    | (s2, none) =>
      ({ s2 with errLog := s2.errLog ++ [LogEntry.note "Done", LogEntry.note "Done"] },
        none)).1.requests =
      rows.flatten.map (reqOf apiKey url)
  cases hv : validateRecipients env apiKey url rows snooze (precheck isValid rows).1
      (startState (precheckLogs isValid rows)) with
  | mk s2 o =>
    cases o with
    | some e =>
      intro h
      exact absurd h (by simp)
    | none =>
      intro _
      exact processAddresses_requests env apiKey url rows
        { startState (precheckLogs isValid rows) with pbarTotal := (precheck isValid rows).1 }
        s2 hv

/-- Claim C7, witness: every address is precheck-bad here, yet dispatched. -/
theorem precheck_is_advisory_every_address_dispatched_app :
    (processFile (fun _ => ⟨200, some (.obj [])⟩) (fun _ => false) true [["bad syntax"]]
        sampleUrl "API-KEY" 10 false).1.requests =
      [["bad syntax"]].flatten.map (reqOf "API-KEY" sampleUrl) :=
  precheck_is_advisory_every_address_dispatched (fun _ => ⟨200, some (.obj [])⟩)
    (fun _ => false) [["bad syntax"]] sampleUrl "API-KEY" 10 rfl

/-- Claim C8: the precheck counts exactly the rows that consist of a single
field accepted by the syntax checker as OK and every other row (wrong field
count or rejected single field) as bad; when every row is a single accepted
field the counts are the line count and zero. -/
theorem precheck_counts_ok_and_bad :
    ∀ (isValid : String → Bool) (rows : List (List String)),
      (precheck isValid rows =
        (rows.countP (fun r => rowOk isValid r), rows.countP (fun r => !rowOk isValid r))) ∧
      ((∀ r ∈ rows, rowOk isValid r = true) → precheck isValid rows = (rows.length, 0)) := by
  intro isValid rows
  refine ⟨precheck_eq_countP isValid rows, ?_⟩
  intro hall
  rw [precheck_eq_countP isValid rows]
  have h1 : rows.countP (fun r => rowOk isValid r) = rows.length :=
    List.countP_eq_length.mpr hall
  have h2 : rows.countP (fun r => !rowOk isValid r) = 0 := by
    rw [List.countP_eq_zero]
    intro r hr
    simp [hall r hr]
  rw [h1, h2]

/-- Claim C8, witness. -/
theorem precheck_counts_ok_and_bad_app :
    precheck (fun _ => true) [["a@b.com"], ["b@b.com"]] = (2, 0) :=
  (precheck_counts_ok_and_bad (fun _ => true) [["a@b.com"], ["b@b.com"]]).2 (by decide)

set_option maxRecDepth 4000 in
/-- Claim C9, counterexample: the claim says the request URL is the base
joined with the percent-encoded address.  The code never percent-encodes:
for an address containing a space the issued URL carries the raw space
where the percent-encoded form required by the spec differs. -/
theorem address_not_percent_encoded :
    (processField (fun _ => ⟨200, some JSON.null⟩) "API-KEY" sampleUrl "a b@c.com"
        emptyRun).1.requests =
      [⟨sampleUrl ++ "a b@c.com", "GET", "API-KEY", "application/json"⟩] ∧
    sampleUrl ++ "a b@c.com" ≠ sampleUrl ++ percentEncode "a b@c.com" := by
  refine ⟨rfl, ?_⟩
  decide

/-- Claim C9 amended: every dispatched request is a GET whose URL is the
configured base endpoint joined (urljoin, no percent-encoding) with the raw
address, carrying the API key in the Authorization header and
application/json in the Accept header. -/
theorem request_is_get_of_joined_raw_address :
    ∀ (env : Nat → Response) (apiKey url i : String) (s : RunState),
      (processField env apiKey url i s).1.requests =
        s.requests ++ [⟨urljoin url i, "GET", apiKey, "application/json"⟩] := by
  intro env apiKey url i s
  exact processField_requests env apiKey url i s

/-- Claim C10: dispatch issues one request per CSV field, not per row: a row
that finishes without an uncaught exception contributes exactly one request
per field in order; the blank row (zero fields) contributes no request, no
row and no state change at all, while the precheck counts a blank row as
exactly one bad row; and a two-field row can yield two output rows. -/
theorem one_request_per_field_not_per_row :
    (∀ (env : Nat → Response) (apiKey url : String) (r : List String) (s s2 : RunState),
      processRow env apiKey url r s = (s2, none) →
      s2.requests = s.requests ++ r.map (reqOf apiKey url)) ∧
    (∀ (env : Nat → Response) (apiKey url : String) (s : RunState),
      processRow env apiKey url [] s = (s, none)) ∧
    (∀ isValid : String → Bool, precheck isValid [[]] = (0, 1)) ∧
    (validateRecipients (fun _ => ⟨200, some (.obj [("results", .obj [])])⟩) "API-KEY" sampleUrl
        [["a@b.com", "b@b.com"]] 10 0 emptyRun).1.out.length = 2 := by
  refine ⟨?_, ?_, ?_, ?_⟩
  · intro env apiKey url r s s2 h
    exact processRow_requests env apiKey url r s s2 h
  · intro env apiKey url s
    rfl
  · intro isValid
    rfl
  · rfl

/-- Claim C10, witness. -/
theorem one_request_per_field_not_per_row_app :
    (⟨[reqOf "API-KEY" sampleUrl "a@b.com", reqOf "API-KEY" sampleUrl "b@b.com"],
      [[JSON.str "a@b.com", JSON.str "", JSON.str "", JSON.str "", JSON.str "", JSON.str "",
        JSON.str "", JSON.str ""],
       [JSON.str "b@b.com", JSON.str "", JSON.str "", JSON.str "", JSON.str "", JSON.str "",
        JSON.str "", JSON.str ""]], [], [], [], 2, 0⟩ : RunState).requests =
      emptyRun.requests ++ ["a@b.com", "b@b.com"].map (reqOf "API-KEY" sampleUrl) :=
  (one_request_per_field_not_per_row).1 (fun _ => ⟨200, some (.obj [("results", .obj [])])⟩)
    "API-KEY" sampleUrl ["a@b.com", "b@b.com"] emptyRun _ rfl

end Sparky
